import Mathlib

/-!
Shallow embedding of the `rel-rs` relative-pointer library (src/lib.rs,
src/traits.rs) and proofs of its specified properties.

Addresses are `W`-bit machine words, modelled as natural numbers; `usize`
values are naturals and `isize` values are integers reduced to the
two's-complement representative of width `W`.  The offset integer type `I`
(any `num_traits::PrimInt`) is modelled by its value range `[lo, hi]`;
a value of type `I` is the mathematical integer it denotes, and the
num_traits conversions `I::from(isize)` / `to_isize()` succeed exactly when
the value fits the destination range.  A `Rel<P, I>` record is a single
stored offset (`Int`), together with the address its storage lives at; the
lifecycle operations pass this state explicitly.  Fallible steps
(`to_isize().unwrap()`) return `Option`.
-/

namespace RelRs

/-- Two's-complement reduction: the unique integer congruent to `x`
modulo `2 ^ W` lying in `[-2 ^ (W - 1), 2 ^ (W - 1) - 1]` (for `W ≥ 1`).
This is what every wrapping `isize` operation produces at width `W`. -/
def signedWrap (W : Nat) (x : Int) : Int :=
  (x + 2 ^ (W - 1)) % 2 ^ W - 2 ^ (W - 1)

/-- The cast `usize as isize` (bit reinterpretation) at width `W`. -/
def usizeAsIsize (W : Nat) (n : Nat) : Int := signedWrap W n

/-- Rust `isize::wrapping_sub` at width `W`. -/
def isizeWrappingSub (W : Nat) (a b : Int) : Int := signedWrap W (a - b)

/-- Rust `isize::wrapping_div` at width `W`: truncating division, except
that `MIN.wrapping_div(-1)` wraps back to `MIN`.  (Division by zero panics
in Rust; the only divisor used in this development is the pointee size 1.) -/
def isizeWrappingDiv (W : Nat) (a b : Int) : Int :=
  if a = -(2 ^ (W - 1)) ∧ b = -1 then a else Int.tdiv a b

/-- Rust `<*const u8>::wrapping_offset`: wrapping addition of a byte count
to an address, at width `W`. -/
def u8WrappingOffset (W : Nat) (a : Nat) (off : Int) : Nat :=
  (((a : Int) + off) % 2 ^ W).toNat

/-- A `num_traits::PrimInt` offset type `I`, modelled by its value range.
`lo`/`hi` are `I::min_value()`/`I::max_value()`. -/
structure IntTy where
  lo : Int
  hi : Int
deriving DecidableEq

/-- Signed 8-bit offset type. -/
def i8 : IntTy := ⟨-128, 127⟩

/-- Unsigned 8-bit offset type. -/
def u8 : IntTy := ⟨0, 255⟩

/-- Signed 64-bit offset type (the `isize` default on a 64-bit platform). -/
def i64 : IntTy := ⟨-(2 ^ 63), 2 ^ 63 - 1⟩

/-- Unsigned 64-bit offset type. -/
def u64 : IntTy := ⟨0, 2 ^ 64 - 1⟩

/-- Signed 128-bit offset type (wider than a 64-bit pointer). -/
def i128 : IntTy := ⟨-(2 ^ 127), 2 ^ 127 - 1⟩

/-- num_traits `I::from(n)` for an `isize` argument: the value-preserving
conversion, `None` when the value does not fit `I`'s range. -/
def IntTy.fromInt (I : IntTy) (n : Int) : Option Int :=
  if I.lo ≤ n ∧ n ≤ I.hi then some n else none

/-- num_traits `PrimInt::zero()`. -/
def IntTy.zero (_I : IntTy) : Int := 0

/-- num_traits `to_isize()` on a value of type `I`: succeeds exactly when
the value fits the `W`-bit signed range. -/
def toIsize (W : Nat) (n : Int) : Option Int :=
  if -(2 ^ (W - 1)) ≤ n ∧ n ≤ 2 ^ (W - 1) - 1 then some n else none

/-- The error `OutOfRange<I>(isize, PhantomData<I>)`: carries the untruncated
`isize` delta computed by `offset_to`. -/
structure OutOfRange where
  delta : Int
deriving DecidableEq

/-- The arguments the `Display` impl for `OutOfRange<I>` feeds to its format
string: the attempted delta, `I::min_value()` and `I::max_value()`. -/
def OutOfRange.fmtArgs (I : IntTy) (e : OutOfRange) : Int × Int × Int :=
  (e.delta, I.lo, I.hi)

/-- The stable path of `Rel::offset_to`:
`(to as isize).wrapping_sub(from as isize)` on the two `*const u8` views. -/
def offsetManual (W : Nat) (toA fromA : Nat) : Int :=
  isizeWrappingSub W (usizeAsIsize W toA) (usizeAsIsize W fromA)

/-- The nightly `<*const T>::wrapping_offset_from(origin)`:
`isize::wrapping_sub(self as isize, origin as isize)` divided (wrapping)
by the pointee size. -/
def wrappingOffsetFrom (W : Nat) (pointeeSize : Nat) (selfA originA : Nat) : Int :=
  isizeWrappingDiv W (isizeWrappingSub W (usizeAsIsize W selfA) (usizeAsIsize W originA))
    (pointeeSize : Int)

/-- The nightly path of `Rel::offset_to`: `to.wrapping_offset_from(from)` on
the `*const u8` views, so the pointee size is 1. -/
def offsetNightly (W : Nat) (toA fromA : Nat) : Int := wrappingOffsetFrom W 1 toA fromA

/-- `Rel::offset_to(this, target)`: computes the wrapping `isize` byte delta
from `this` to `target` and narrows it to `I`; on failure the error carries
the unnarrowed delta.  (The stable, manual-subtraction path; `offsetNightly`
is proved equal to `offsetManual` below.) -/
def offset_to (W : Nat) (I : IntTy) (thisA targetA : Nat) : Except OutOfRange Int :=
  match I.fromInt (offsetManual W targetA thisA) with
  | some i => .ok i
  | none => .error ⟨offsetManual W targetA thisA⟩

/-- `Rel::get_raw`: `self.offset.to_isize().unwrap()` then
`(self as *const u8).wrapping_offset(offset)`.  `none` models the `unwrap`
panic when the stored offset does not fit `isize`. -/
def get_raw (W : Nat) (selfAddr : Nat) (off : Int) : Option Nat :=
  (toIsize W off).map fun o => u8WrappingOffset W selfAddr o

/-- `Rel::set_raw(this, p)`: `p.into_raw()` yields the raw address `pAddr`;
`offset_to` computes the offset; on success the record at `this` is
overwritten with it, on failure (the `?` early return) the stored contents
`cur` are left untouched.  Returns the new stored offset paired with the
`Result<(), OutOfRange<I>>`; note the result type carries no pointer value,
so on failure `p` is leaked. -/
def set_raw (W : Nat) (I : IntTy) (thisAddr : Nat) (cur : Int) (pAddr : Nat) :
    Int × Except OutOfRange Unit :=
  match offset_to W I thisAddr pAddr with
  | .ok off => (off, .ok ())
  | .error e => (cur, .error e)

/-- `Rel::replace(self, p)`: reconstructs the old pointer value from
`self.get_raw()` (its raw address, here returned directly, models
`P::from_raw`), then runs `set_raw` on the same record.  Returns the old
value's address, the record's new stored offset, and the `set_raw` result;
`none` models the `unwrap` panic inside `get_raw`. -/
def replace (W : Nat) (I : IntTy) (selfAddr : Nat) (off : Int) (pAddr : Nat) :
    Option (Nat × Int × Except OutOfRange Unit) :=
  (get_raw W selfAddr off).map fun old =>
    let s := set_raw W I selfAddr off pAddr
    (old, s.1, s.2)

/-- `Rel::new()` for a nullable kind: the stored offset is `I::zero()`. -/
def new (I : IntTy) : Int := I.zero

/-- `Option<P>::from_raw` from src/traits.rs: null (address 0) becomes
`None`, any other address becomes `Some` of the inner pointer. -/
def optionFromRaw (a : Nat) : Option Nat := if a = 0 then none else some a

/-- `Option<P>::into_raw`: `None` maps to the null address 0, `Some p` to
`p`'s raw address. -/
def optionIntoRaw : Option Nat → Nat
  | none => 0
  | some a => a

/-- `Rel::take` for the optional-adapter kind `Option<P>`: reconstructs the
pointer value with `Option<P>::from_raw(self.get_raw())` and resets the
record to `Self::new()` (offset 0).  Returns the value and the new stored
offset; `none` models the `unwrap` panic inside `get_raw`. -/
def takeOpt (W : Nat) (selfAddr : Nat) (off : Int) : Option (Option Nat × Int) :=
  (get_raw W selfAddr off).map fun a => (optionFromRaw a, 0)

/-- `Rel::with_inner(self, Clone::clone)` as used by `clone_into_raw`:
reconstructs the inner pointer from `self.get_raw()`, clones it, and
forgets the reconstruction.  `cloneAddr` is the kind's clone behaviour:
the raw address of the clone of the value whose raw address is given
(identity for shallow kinds such as `&T` or `Rc`, a fresh allocation for
`Box`).  `none` models the `unwrap` panic inside `get_raw`. -/
def with_inner_clone (W : Nat) (cloneAddr : Nat → Nat) (selfAddr : Nat) (off : Int) :
    Option Nat :=
  (get_raw W selfAddr off).map cloneAddr

/-- `Rel::clone_into_raw(self, target)`: clones `self`'s inner value and
`set_raw`s it into the record at `targetAddr` holding `targetCur`. -/
def clone_into_raw (W : Nat) (I : IntTy) (cloneAddr : Nat → Nat)
    (selfAddr : Nat) (off : Int) (targetAddr : Nat) (targetCur : Int) :
    Option (Int × Except OutOfRange Unit) :=
  (with_inner_clone W cloneAddr selfAddr off).map fun ca =>
    set_raw W I targetAddr targetCur ca

/-- `Rel::clone_into(self, target)`: `target.take()` first (dropping the
taken value and leaving `target` at offset 0), then `clone_into_raw`.
The outer `Option` models the `unwrap` panics inside the two `get_raw`
calls. -/
def clone_into (W : Nat) (I : IntTy) (cloneAddr : Nat → Nat)
    (selfAddr : Nat) (off : Int) (targetAddr : Nat) (targetOff : Int) :
    Option (Int × Except OutOfRange Unit) :=
  (get_raw W targetAddr targetOff).bind fun _ =>
    clone_into_raw W I cloneAddr selfAddr off targetAddr 0

/-- The effect of `impl Drop for Rel`: reconstruct one pointer value from
`self.get_raw()` and let it drop.  `releaseOf a` is the list of backing
resources the kind `P` releases when a value reconstructed at raw address
`a` is dropped. -/
def dropEffect (W : Nat) (releaseOf : Nat → List Nat) (selfAddr : Nat) (off : Int) :
    Option (List Nat) :=
  (get_raw W selfAddr off).map releaseOf

/-- Drop behaviour of the owning kind `Box<T>`: releases (deallocates) the
single backing resource at the target address. -/
def boxReleases (a : Nat) : List Nat := [a]

/-- Drop behaviour of the borrowing kind `&T`: releases nothing. -/
def refReleases (_a : Nat) : List Nat := []

/-- Round trip used by the spec's first testable property: `set_raw` on a
record at `recordAddr` (currently storing `cur`) with a pointer to
`targetAddr`, then `get_raw` on the same record. -/
def roundTrip (W : Nat) (I : IntTy) (recordAddr : Nat) (cur : Int) (targetAddr : Nat) :
    Option Nat :=
  get_raw W recordAddr (set_raw W I recordAddr cur targetAddr).1

/-! Arithmetic facts about the two's-complement reduction. -/

theorem signedWrap_emod (W : Nat) (x : Int) :
    signedWrap W x % 2 ^ W = x % 2 ^ W := by
  unfold signedWrap
  conv_rhs => rw [show x = x + 2 ^ (W - 1) - 2 ^ (W - 1) by ring]
  rw [Int.sub_emod, Int.sub_emod (x + 2 ^ (W - 1)), Int.emod_emod_of_dvd _ dvd_rfl]

theorem signedWrap_bounds (W : Nat) (hW : 1 ≤ W) (x : Int) :
    -(2 ^ (W - 1)) ≤ signedWrap W x ∧ signedWrap W x ≤ 2 ^ (W - 1) - 1 := by
  have hM : (2 : Int) ^ W = 2 ^ (W - 1) * 2 := by
    conv_lhs => rw [show W = W - 1 + 1 by omega]
    rw [pow_succ]
  have h1 : 0 ≤ (x + 2 ^ (W - 1)) % 2 ^ W := Int.emod_nonneg _ (by positivity)
  have h2 : (x + 2 ^ (W - 1)) % 2 ^ W < 2 ^ W := Int.emod_lt_of_pos _ (by positivity)
  unfold signedWrap
  omega

theorem signedWrap_congr (W : Nat) {x y : Int} (h : x % 2 ^ W = y % 2 ^ W) :
    signedWrap W x = signedWrap W y := by
  unfold signedWrap
  rw [Int.add_emod, h, ← Int.add_emod]

theorem offsetManual_eq (W : Nat) (toA fromA : Nat) :
    offsetManual W toA fromA = signedWrap W ((toA : Int) - fromA) := by
  unfold offsetManual isizeWrappingSub usizeAsIsize
  exact signedWrap_congr W
    (by rw [Int.sub_emod, signedWrap_emod, signedWrap_emod, ← Int.sub_emod])

theorem u8WrappingOffset_eq (W : Nat) (r t : Nat) (d : Int)
    (hd : d % 2 ^ W = ((t : Int) - r) % 2 ^ W) (ht : t < 2 ^ W) :
    u8WrappingOffset W r d = t := by
  unfold u8WrappingOffset
  have hsum : ((r : Int) + d) % 2 ^ W = t := by
    rw [Int.add_emod, hd, ← Int.add_emod, show (r : Int) + ((t : Int) - r) = t by ring]
    exact Int.emod_eq_of_lt (by positivity) (by exact_mod_cast ht)
  rw [hsum]
  simp

/-! Evaluation helpers for `set_raw`, shared by several proofs below. -/

theorem set_raw_eq_of_none (W : Nat) (I : IntTy) (thisA : Nat) (cur : Int) (pA : Nat)
    (h : I.fromInt (offsetManual W pA thisA) = none) :
    set_raw W I thisA cur pA = (cur, .error ⟨offsetManual W pA thisA⟩) := by
  unfold set_raw offset_to
  rw [h]

theorem set_raw_eq_of_in_range (W : Nat) (I : IntTy) (thisA : Nat) (cur : Int) (pA : Nat)
    (h : I.lo ≤ offsetManual W pA thisA ∧ offsetManual W pA thisA ≤ I.hi) :
    set_raw W I thisA cur pA = (offsetManual W pA thisA, .ok ()) := by
  unfold set_raw offset_to IntTy.fromInt
  rw [if_pos h]

/-! Claim theorems. -/

/-- C9: equivalence of the two delta computations in `offset_to` — the
nightly path (`wrapping_offset_from` on the `*const u8` views, pointee size
1, with its wrapping division) and the stable manual path (wrapping
subtraction of the addresses as `isize`) compute the same signed byte delta
for every pair of addresses. -/
theorem offset_paths_equiv (W : Nat) (toA fromA : Nat) :
    offsetNightly W toA fromA = offsetManual W toA fromA := by
  unfold offsetNightly wrappingOffsetFrom offsetManual isizeWrappingDiv
  rw [if_neg (by simp)]
  simp [Int.tdiv_one]

/-- C3: `set_raw` succeeds exactly when the computed full-width signed delta
lies in the range `[I.lo, I.hi]` of the offset type (so `delta = MAX`
succeeds and `delta = MAX + 1` fails, symmetrically at `MIN`), and on
failure the returned error carries the untruncated attempted delta, and its
`Display` impl formats that delta against `I`'s min and max bounds. -/
theorem range_boundaries (W : Nat) (I : IntTy) (thisA pA : Nat) (cur : Int) :
    ((set_raw W I thisA cur pA).2 = .ok () ↔
      I.lo ≤ offsetManual W pA thisA ∧ offsetManual W pA thisA ≤ I.hi) ∧
    (¬(I.lo ≤ offsetManual W pA thisA ∧ offsetManual W pA thisA ≤ I.hi) →
      (set_raw W I thisA cur pA).2 = .error ⟨offsetManual W pA thisA⟩ ∧
      OutOfRange.fmtArgs I ⟨offsetManual W pA thisA⟩ =
        (offsetManual W pA thisA, I.lo, I.hi)) := by
  by_cases h : I.lo ≤ offsetManual W pA thisA ∧ offsetManual W pA thisA ≤ I.hi
  · rw [set_raw_eq_of_in_range W I thisA cur pA h]
    simp [h]
  · rw [set_raw_eq_of_none W I thisA cur pA (by unfold IntTy.fromInt; rw [if_neg h])]
    simp [h, OutOfRange.fmtArgs]

theorem range_boundaries_witness :
    offsetManual 64 200 0 = 200 ∧
    ((set_raw 64 i8 0 5 200).2 = .error ⟨offsetManual 64 200 0⟩ ∧
      OutOfRange.fmtArgs i8 ⟨offsetManual 64 200 0⟩ =
        (offsetManual 64 200 0, i8.lo, i8.hi)) :=
  ⟨by decide, (range_boundaries 64 i8 0 200 5).2 (by decide)⟩

/-- C5: when `set_raw` fails with a range error, the record's stored offset
is left unchanged, and the error carries the computed delta.  The result
type `Int × Except OutOfRange Unit` contains no pointer value, so the
extracted pointer `p` is not returned to the caller: it is leaked. -/
theorem set_raw_failure_atomic (W : Nat) (I : IntTy) (thisA : Nat) (cur : Int) (pA : Nat)
    (h : I.fromInt (offsetManual W pA thisA) = none) :
    set_raw W I thisA cur pA = (cur, .error ⟨offsetManual W pA thisA⟩) :=
  set_raw_eq_of_none W I thisA cur pA h

theorem set_raw_failure_atomic_witness :
    IntTy.fromInt i8 (offsetManual 64 200 0) = none ∧
    set_raw 64 i8 0 7 200 = (7, .error ⟨offsetManual 64 200 0⟩) :=
  ⟨by decide, set_raw_failure_atomic 64 i8 0 7 200 (by decide)⟩

/-- C1 (counterexample): the round trip fails as stated.  With `I = u64` on a
64-bit platform, a record at address 8 and a target at address `2 ^ 63 + 8`,
the mathematical byte delta `2 ^ 63` is representable in `u64`, yet `set_raw`
wraps the delta to the negative `isize` value `-(2 ^ 63)` before the range
check, rejects it, and the subsequent `get_raw` does not return the target
address. -/
theorem round_trip_cex :
    (u64.lo ≤ ((2 ^ 63 + 8 : Nat) : Int) - ((8 : Nat) : Int) ∧
      ((2 ^ 63 + 8 : Nat) : Int) - ((8 : Nat) : Int) ≤ u64.hi) ∧
    roundTrip 64 u64 8 0 (2 ^ 63 + 8) ≠ some (2 ^ 63 + 8) := by decide

/-- C1 (amended): for every record and target address (target a valid `W`-bit
address) such that the full-width signed delta actually computed by
`offset_to` — the two's-complement reduction `signedWrap W (target − record)`
— is representable in `I`, `set_raw` succeeds and `get_raw` on the same
record returns the target address exactly. -/
theorem round_trip_wrapped (W : Nat) (hW : 1 ≤ W) (I : IntTy)
    (recordAddr targetAddr : Nat) (cur : Int) (ht : targetAddr < 2 ^ W)
    (hI : I.lo ≤ signedWrap W ((targetAddr : Int) - recordAddr) ∧
      signedWrap W ((targetAddr : Int) - recordAddr) ≤ I.hi) :
    (set_raw W I recordAddr cur targetAddr).2 = .ok () ∧
    roundTrip W I recordAddr cur targetAddr = some targetAddr := by
  have hd := offsetManual_eq W targetAddr recordAddr
  have hset : set_raw W I recordAddr cur targetAddr =
      (signedWrap W ((targetAddr : Int) - recordAddr), .ok ()) := by
    rw [set_raw_eq_of_in_range W I recordAddr cur targetAddr (hd ▸ hI), hd]
  refine ⟨by rw [hset], ?_⟩
  unfold roundTrip
  rw [hset]
  have hb := signedWrap_bounds W hW ((targetAddr : Int) - recordAddr)
  unfold get_raw toIsize
  rw [if_pos hb]
  simp only [Option.map_some']
  congr 1
  exact u8WrappingOffset_eq W recordAddr targetAddr _ (signedWrap_emod W _) ht

theorem round_trip_wrapped_witness :
    (set_raw 64 i8 100 5 116).2 = .ok () ∧
    roundTrip 64 i8 100 5 116 = some 116 :=
  round_trip_wrapped 64 (by decide) i8 100 116 5 (by decide) (by decide)

/-- C4: `replace` on a populated record whose `get_raw` yields the old target
`t`, called with a new pointer whose delta is out of range for `I`, still
returns the old pointer value reconstructed from the old offset (its raw
address `t`), together with the range error; the old value is unaffected by
the failed re-initialization (and the stored offset is left at the old
value). -/
theorem replace_failure_old (W : Nat) (I : IntTy) (selfAddr : Nat) (off : Int)
    (pA t : Nat) (hpop : get_raw W selfAddr off = some t)
    (hfail : I.fromInt (offsetManual W pA selfAddr) = none) :
    replace W I selfAddr off pA =
      some (t, off, .error ⟨offsetManual W pA selfAddr⟩) := by
  unfold replace
  rw [hpop, set_raw_eq_of_none W I selfAddr off pA hfail]
  rfl

theorem replace_failure_old_witness :
    replace 64 i8 100 16 400 = some (116, 16, .error ⟨offsetManual 64 400 100⟩) :=
  replace_failure_old 64 i8 100 16 400 116 (by decide) (by decide)

/-- C6: `clone_into` first clears the target via `take` (the taken value is
dropped), leaving the target at offset 0; when the delta from the target's
storage location to the cloned value (clone of the source's target `s`) is
out of range for `I`, `clone_into` returns the range error with the target
left at offset 0 — the null state — and the already-extracted clone absent
from the result (leaked). -/
theorem clone_into_failure_null (W : Nat) (I : IntTy) (cloneAddr : Nat → Nat)
    (srcAddr : Nat) (srcOff : Int) (targetAddr : Nat) (targetOff : Int) (s : Nat)
    (hsrc : get_raw W srcAddr srcOff = some s)
    (htgt : (get_raw W targetAddr targetOff).isSome)
    (hfail : I.fromInt (offsetManual W (cloneAddr s) targetAddr) = none) :
    clone_into W I cloneAddr srcAddr srcOff targetAddr targetOff =
      some (0, .error ⟨offsetManual W (cloneAddr s) targetAddr⟩) := by
  obtain ⟨u, hu⟩ := Option.isSome_iff_exists.mp htgt
  unfold clone_into clone_into_raw with_inner_clone
  rw [hu, hsrc]
  simp only [Option.map_some', Option.bind_some]
  rw [set_raw_eq_of_none W I targetAddr 0 (cloneAddr s) hfail]
  rfl

theorem clone_into_failure_null_witness :
    clone_into 64 i8 id 1000 500 200 8 =
      some (0, .error ⟨offsetManual 64 (id 1500) 200⟩) :=
  clone_into_failure_null 64 i8 id 1000 500 200 8 1500 (by decide) (by decide) (by decide)

/-- C7: `get_raw` returns exactly `address(record) + widen(record.offset)`
(no validity check on the record beyond the `isize` conversion of the
stored offset), and the computation is translation-invariant: moving the
record by any uniform translation `t` moves the computed raw address by
exactly `t`, so a populated record copied together with its target stays
correct relative to the new positions. -/
theorem get_raw_translation (W : Nat) (addr : Nat) (off : Int)
    (hoff : -(2 ^ (W - 1)) ≤ off ∧ off ≤ 2 ^ (W - 1) - 1)
    (hlo : 0 ≤ (addr : Int) + off) (hhi : (addr : Int) + off < 2 ^ W) :
    get_raw W addr off = some ((addr : Int) + off).toNat ∧
    ∀ t : Nat, (addr : Int) + t + off < 2 ^ W →
      get_raw W (addr + t) off = some (((addr : Int) + off).toNat + t) := by
  constructor
  · unfold get_raw toIsize u8WrappingOffset
    rw [if_pos hoff]
    simp only [Option.map_some']
    rw [Int.emod_eq_of_lt hlo hhi]
  · intro t htr
    unfold get_raw toIsize u8WrappingOffset
    rw [if_pos hoff]
    simp only [Option.map_some']
    have h0 : (0 : Int) ≤ ((addr + t : Nat) : Int) + off := by push_cast; omega
    have h1 : ((addr + t : Nat) : Int) + off < 2 ^ W := by push_cast; omega
    rw [Int.emod_eq_of_lt h0 h1]
    congr 1
    push_cast
    omega

theorem get_raw_translation_witness :
    get_raw 64 100 16 = some (((100 : Nat) : Int) + 16).toNat ∧
    ∀ t : Nat, ((100 : Nat) : Int) + t + 16 < 2 ^ 64 →
      get_raw 64 (100 + t) 16 = some ((((100 : Nat) : Int) + 16).toNat + t) :=
  get_raw_translation 64 100 16 (by decide) (by decide) (by decide)

/-- C8: dropping a populated record reconstructs exactly one pointer value
from the computed raw address and lets its normal release behaviour run:
for the owning `Box` kind this is exactly one release of the backing
resource (the one at the target address), for the borrowing `&T` kind it is
zero releases. -/
theorem ownership_forwarding (W : Nat) (selfAddr : Nat) (off : Int) (t : Nat)
    (hpop : get_raw W selfAddr off = some t) :
    dropEffect W boxReleases selfAddr off = some [t] ∧
    dropEffect W refReleases selfAddr off = some [] := by
  unfold dropEffect
  rw [hpop]
  exact ⟨rfl, rfl⟩

theorem ownership_forwarding_witness :
    dropEffect 64 boxReleases 100 16 = some [116] ∧
    dropEffect 64 refReleases 100 16 = some [] :=
  ownership_forwarding 64 100 16 116 (by decide)

/-- C10: for every stored offset produced through the public API — `new()`
storing zero, or any operation that stored a value for which
`offset_to` succeeded (`set_raw`, `replace`, the clone operations) — the
`to_isize()` conversion inside `get_raw` succeeds, so the `unwrap` never
panics and `get_raw` is total on such records, for any offset type `I`
(including unsigned or wider-than-pointer ones). -/
theorem get_raw_total_api (W : Nat) (hW : 1 ≤ W) (I : IntTy) (off : Int) (addr : Nat)
    (h : off = new I ∨ ∃ a b, offset_to W I a b = .ok off) :
    (get_raw W addr off).isSome := by
  have hrange : -(2 ^ (W - 1)) ≤ off ∧ off ≤ 2 ^ (W - 1) - 1 := by
    rcases h with h0 | ⟨a, b, hab⟩
    · have hp : (0 : Int) < 2 ^ (W - 1) := by positivity
      rw [h0]
      unfold new IntTy.zero
      omega
    · have hoffeq : off = offsetManual W b a := by
        unfold offset_to IntTy.fromInt at hab
        by_cases hc : I.lo ≤ offsetManual W b a ∧ offsetManual W b a ≤ I.hi
        · rw [if_pos hc] at hab
          simpa using hab.symm
        · rw [if_neg hc] at hab
          simp at hab
      rw [hoffeq, offsetManual_eq]
      exact signedWrap_bounds W hW _
  unfold get_raw toIsize
  rw [if_pos hrange]
  rfl

theorem get_raw_total_api_witness :
    ((0 : Int) = new u8 ∨ ∃ a b, offset_to 64 u8 a b = .ok 0) ∧
    (get_raw 64 100 0).isSome :=
  ⟨Or.inl rfl, get_raw_total_api 64 (by decide) u8 0 100 (Or.inl rfl)⟩

/-- C2 (code bug, evaluated): a fresh nullable record has stored offset 0,
but `take()` on a fresh optional-adapter record at address 16 returns
`some 16` — `get_raw` adds the zero offset to the record's own (non-null)
address, so `Option<P>::from_raw` reconstructs a bogus non-null pointer to
the record itself instead of the canonical null `none` (which only address
0 would produce, as the last conjunct shows).  The record is left at offset
0 as claimed, but the returned value is not the kind's null value. -/
theorem take_fresh_nonnull :
    new i64 = 0 ∧
    takeOpt 64 16 (new i64) = some (some 16, 0) ∧
    (some 16 : Option Nat) ≠ none ∧
    optionFromRaw (optionIntoRaw (none : Option Nat)) = none := by decide

end RelRs
